import Mathlib

/-!
Verification development for the 2D Ising model simulator
(`src/IsingModel.py`, class `IsingModelClass`).

The Python class is shallowly embedded as follows.

* An instance is a record `IsingModelClass` below.  The numpy spin array is
  modelled as a total function on natural-number indices; only indices below
  `size` are meaningful.  The attributes `energies` and `magnetizations`,
  which Python creates with assignment and removes with `delattr`, are
  `Option` fields (`none` = attribute absent).
* Python `float` arithmetic on parameters, energies and magnetizations is
  modelled with exact rationals; the one genuinely transcendental value, the
  Boltzmann factor `exp(-dE/(kB T))`, is modelled with `Real.exp`.
* The process-wide numpy random source is a record `Rng` of two streams plus
  cursors; `np.random.randint(0, n)` is modelled as the next integer of the
  stream reduced into `[0, n)`, `np.random.choice([-1, 1])` as a Boolean draw
  per cell, and `np.random.rand()` as the next real of the unit stream.
* A raised Python exception is an `Except.error` carrying the message; the
  state reached before the raise is returned alongside, because the Python
  instance keeps all mutations performed before an exception propagates.
-/

namespace IsingModel

/-- Boltzmann constant, the class attribute `kB` of `IsingModelClass`. -/
def kB : ℚ := 1.38064852e-23

/-- State of one `IsingModelClass` instance. -/
structure IsingModelClass where
  size : ℕ
  temperature : ℚ
  J : ℚ
  h : ℚ
  spins : ℕ → ℕ → ℤ
  energies : Option (List ℚ)
  magnetizations : Option (List ℚ)

/-- The numpy random source: a stream of integer draws (for
`np.random.randint`), a stream of unit-interval real draws (for
`np.random.rand`), and cursors counting how many draws of each kind have
been consumed. -/
structure Rng where
  nats : ℕ → ℕ
  reals : ℕ → ℝ
  npos : ℕ
  rpos : ℕ

/-- Constructor `__init__(size, temperature, J=1, h=0)`.  The Python code
performs no validation of its own; `np.random.choice([-1, 1],
size=(size, size))` raises `ValueError` for a negative dimension (so no
instance is produced), and accepts `size = 0` and any temperature. -/
def isingInit (size : ℤ) (temperature J h : ℚ) (coins : ℕ → ℕ → Bool) :
    Except String IsingModelClass :=
  if size < 0 then .error "ValueError: negative dimensions are not allowed"
  else .ok { size := size.toNat, temperature := temperature, J := J, h := h,
             spins := fun a b => if coins a b then 1 else -1,
             energies := none, magnetizations := none }

/-- `reset_model`: redraws every spin and deletes the `magnetizations`
attribute when present.  The Python code does not delete `energies`. -/
def reset_model (m : IsingModelClass) (coins : ℕ → ℕ → Bool) : IsingModelClass :=
  { m with spins := fun a b => if coins a b then 1 else -1,
           magnetizations := none }

/-- `calc_curie_temperature`: `2 * J / (kB * log(1 + sqrt(2)))`. -/
noncomputable def calc_curie_temperature (m : IsingModelClass) : ℝ :=
  2 * (m.J : ℝ) / ((kB : ℝ) * Real.log (1 + Real.sqrt 2))

/-- `calc_energy_change(i, j)`.  For `0 ≤ i < size` the Python index
expression `(i - 1) % size` equals `(i + size - 1) % size` in `ℕ`. -/
def calc_energy_change (m : IsingModelClass) (i j : ℕ) : ℚ :=
  let neighbors : ℤ :=
    m.spins ((i + 1) % m.size) j +
    m.spins ((i + m.size - 1) % m.size) j +
    m.spins i ((j + 1) % m.size) +
    m.spins i ((j + m.size - 1) % m.size)
  2 * m.J * (m.spins i j : ℚ) * (neighbors : ℚ) + 2 * m.h * (m.spins i j : ℚ)

/-- The in-place update `self.spins[i, j] *= -1`. -/
def flipSpin (m : IsingModelClass) (i j : ℕ) : IsingModelClass :=
  { m with spins := fun a b => if a = i ∧ b = j then -1 * m.spins a b else m.spins a b }

open Classical

/-- `metropolis_step`.  Two fresh integer draws pick the site
(`np.random.randint(0, size, size=2)` raises `ValueError` when `size = 0`);
`delta_E <= 0` accepts at once and, the `or` being short-circuit, consumes
no uniform draw; otherwise one fresh uniform draw is compared with
`np.exp(-delta_E / (temperature * kB))`. -/
noncomputable def metropolis_step (m : IsingModelClass) (rng : Rng) :
    Except String (IsingModelClass × Rng) :=
  if m.size = 0 then .error "ValueError: low >= high"
  else if calc_energy_change m (rng.nats rng.npos % m.size) (rng.nats (rng.npos + 1) % m.size) ≤ 0 then
    .ok (flipSpin m (rng.nats rng.npos % m.size) (rng.nats (rng.npos + 1) % m.size),
         { rng with npos := rng.npos + 2 })
  else if rng.reals rng.rpos <
      Real.exp (((-(calc_energy_change m (rng.nats rng.npos % m.size)
          (rng.nats (rng.npos + 1) % m.size)) / (m.temperature * kB) : ℚ) : ℝ)) then
    .ok (flipSpin m (rng.nats rng.npos % m.size) (rng.nats (rng.npos + 1) % m.size),
         { rng with npos := rng.npos + 2, rpos := rng.rpos + 1 })
  else .ok (m, { rng with npos := rng.npos + 2, rpos := rng.rpos + 1 })

/-- The whole-lattice energy recorded each iteration inside `simulate`:
`-J * np.sum(spins * np.roll(spins, 1, axis=0) + spins * np.roll(spins, 1, axis=1))
 - h * np.sum(spins)`.  Rolling forward by one places `spins[(x-1) % size, y]`
at position `(x, y)`. -/
def total_energy (m : IsingModelClass) : ℚ :=
  -m.J * ((∑ x ∈ Finset.range m.size, ∑ y ∈ Finset.range m.size,
        (m.spins x y * m.spins ((x + m.size - 1) % m.size) y +
         m.spins x y * m.spins x ((y + m.size - 1) % m.size)) : ℤ) : ℚ)
    - m.h * ((∑ x ∈ Finset.range m.size, ∑ y ∈ Finset.range m.size, m.spins x y : ℤ) : ℚ)

/-- The magnetization recorded each iteration inside `simulate`:
`np.sum(spins) / size ** 2`. -/
def total_magnetization (m : IsingModelClass) : ℚ :=
  ((∑ x ∈ Finset.range m.size, ∑ y ∈ Finset.range m.size, m.spins x y : ℤ) : ℚ) / (m.size : ℚ) ^ 2

/-- One iteration of the loop body in `simulate` at loop index `k`: one
`metropolis_step`, record the energy, record the magnetization, then the
progress check `step % (steps // 10) == 0`, which raises `ZeroDivisionError`
whenever `steps // 10 = 0`. -/
noncomputable def sim_step (stepsN k : ℕ) (m : IsingModelClass) (rng : Rng) :
    (IsingModelClass × Rng) × Option String :=
  match metropolis_step m rng with
  | .error e => ((m, rng), some e)
  | .ok (m1, rng1) =>
      let energie := total_energy m1
      let m2 := { m1 with energies := some ((m1.energies.getD []).set k energie) }
      let mag := total_magnetization m2
      let m3 := { m2 with magnetizations := some ((m2.magnetizations.getD []).set k mag) }
      if stepsN / 10 = 0 then ((m3, rng1), some "ZeroDivisionError") else ((m3, rng1), none)

/-- The `for step in range(steps)` loop of `simulate`, with `r` iterations
remaining and next loop index `k`; stops early when an iteration raises. -/
noncomputable def sim_loop (stepsN : ℕ) : ℕ → ℕ → IsingModelClass → Rng →
    (IsingModelClass × Rng) × Option String
  | _, 0, m, rng => ((m, rng), none)
  | k, r + 1, m, rng =>
      match sim_step stepsN k m rng with
      | (s, some e) => (s, some e)
      | (s, none) => sim_loop stepsN (k + 1) r s.1 s.2

/-- `simulate(steps)`.  When the `magnetizations` attribute exists, the
stored arrays are returned at once; otherwise `np.zeros(steps)` raises
`ValueError` for negative `steps`, else both arrays are allocated and the
loop runs.  The instance state after the call (mutations survive a raise)
is returned together with the result or the exception. -/
noncomputable def simulate (steps : ℤ) (m : IsingModelClass) (rng : Rng) :
    (IsingModelClass × Rng) × Except String (List ℚ × List ℚ) :=
  match m.magnetizations with
  | some mags =>
      match m.energies with
      | some es => ((m, rng), .ok (es, mags))
      | none => ((m, rng), .error "AttributeError: energies")
  | none =>
      if steps < 0 then ((m, rng), .error "ValueError: negative dimensions are not allowed")
      else
        let n := steps.toNat
        let m0 := { m with energies := some (List.replicate n (0 : ℚ)),
                           magnetizations := some (List.replicate n (0 : ℚ)) }
        match sim_loop n 0 n m0 rng with
        | ((m1, rng1), none) => ((m1, rng1), .ok (m1.energies.getD [], m1.magnetizations.getD []))
        | ((m1, rng1), some e) => ((m1, rng1), .error e)

/-- Operations a caller can perform on an instance after construction. -/
inductive Op where
  | reset (coins : ℕ → ℕ → Bool)
  | metropolis
  | simulate (steps : ℤ)

/-- Effect of one operation on the instance and the shared random source.
A raised exception aborts the operation but keeps the state reached. -/
noncomputable def runOp (s : IsingModelClass × Rng) : Op → IsingModelClass × Rng
  | .reset coins => (reset_model s.1 coins, s.2)
  | .metropolis =>
      match metropolis_step s.1 s.2 with
      | .ok s1 => s1
      | .error _ => s
  | .simulate steps => (simulate steps s.1 s.2).1

/-- Run a sequence of operations. -/
noncomputable def run : IsingModelClass × Rng → List Op → IsingModelClass × Rng
  | s, [] => s
  | s, op :: ops => run (runOp s op) ops

/-- Every lattice cell holds plus one or minus one. -/
def SpinsPM (m : IsingModelClass) : Prop := ∀ a b : ℕ, m.spins a b = 1 ∨ m.spins a b = -1

/-- Row index that the next `metropolis_step` selects from the given
random source. -/
def chosenRow (m : IsingModelClass) (rng : Rng) : ℕ := rng.nats rng.npos % m.size

/-- Column index that the next `metropolis_step` selects from the given
random source. -/
def chosenCol (m : IsingModelClass) (rng : Rng) : ℕ := rng.nats (rng.npos + 1) % m.size

/-- The acceptance probability `exp(-dE / (kB T))` of the specification. -/
noncomputable def acceptProb (m : IsingModelClass) (dE : ℚ) : ℝ :=
  Real.exp (((-dE / (m.temperature * kB) : ℚ) : ℝ))

/-- The Metropolis acceptance condition of the specification: accept when
`dE ≤ 0`, otherwise exactly when the one fresh uniform draw is below the
acceptance probability. -/
def metropolisAccepts (m : IsingModelClass) (rng : Rng) : Prop :=
  calc_energy_change m (chosenRow m rng) (chosenCol m rng) ≤ 0 ∨
    rng.reals rng.rpos < acceptProb m (calc_energy_change m (chosenRow m rng) (chosenCol m rng))

/-- A fixed deterministic random source used for concrete instances. -/
noncomputable def rng0 : Rng := { nats := fun _ => 0, reals := fun _ => 0, npos := 0, rpos := 0 }

/-- A concrete freshly constructed 1-spin instance. -/
def mOne : IsingModelClass :=
  { size := 1, temperature := 1, J := 1, h := 0, spins := fun _ _ => 1,
    energies := none, magnetizations := none }

/-- A concrete freshly constructed 2 by 2 instance. -/
def mTwo : IsingModelClass :=
  { size := 2, temperature := 1, J := 1, h := 0, spins := fun _ _ => 1,
    energies := none, magnetizations := none }

/-- The end-to-end scenario instance of the specification: size 10,
temperature 100, J = 1, h = 0. -/
def mTen : IsingModelClass :=
  { size := 10, temperature := 100, J := 1, h := 0, spins := fun _ _ => 1,
    energies := none, magnetizations := none }

/-- A concrete instance carrying a recorded trajectory. -/
def mCached : IsingModelClass :=
  { size := 1, temperature := 1, J := 1, h := 0, spins := fun _ _ => 1,
    energies := some [42], magnetizations := some [3] }

lemma flipSpin_size (m : IsingModelClass) (i j : ℕ) : (flipSpin m i j).size = m.size := rfl

lemma flipSpin_J (m : IsingModelClass) (i j : ℕ) : (flipSpin m i j).J = m.J := rfl

lemma flipSpin_h (m : IsingModelClass) (i j : ℕ) : (flipSpin m i j).h = m.h := rfl

lemma flipSpin_energies (m : IsingModelClass) (i j : ℕ) :
    (flipSpin m i j).energies = m.energies := rfl

lemma flipSpin_magnetizations (m : IsingModelClass) (i j : ℕ) :
    (flipSpin m i j).magnetizations = m.magnetizations := rfl

lemma flipSpin_spins (m : IsingModelClass) (i j a b : ℕ) :
    (flipSpin m i j).spins a b = if a = i ∧ b = j then -1 * m.spins a b else m.spins a b := rfl

lemma metropolis_step_size_zero (m : IsingModelClass) (rng : Rng) (hz : m.size = 0) :
    metropolis_step m rng = .error "ValueError: low >= high" := by
  simp [metropolis_step, hz]

/-- With a nonempty lattice, a Metropolis step always succeeds and its result
is either the unchanged instance or the instance with the selected spin
flipped; the integer cursor always advances by two. -/
lemma metropolis_step_ok_cases (m : IsingModelClass) (rng : Rng) (hs : m.size ≠ 0) :
    ∃ m1 rng1, metropolis_step m rng = .ok (m1, rng1) ∧
      (m1 = m ∨ m1 = flipSpin m (rng.nats rng.npos % m.size) (rng.nats (rng.npos + 1) % m.size)) ∧
      rng1.nats = rng.nats ∧ rng1.reals = rng.reals ∧ rng1.npos = rng.npos + 2 := by
  unfold metropolis_step
  rw [if_neg hs]
  by_cases hd : calc_energy_change m (rng.nats rng.npos % m.size) (rng.nats (rng.npos + 1) % m.size) ≤ 0
  · rw [if_pos hd]
    exact ⟨_, _, rfl, Or.inr rfl, rfl, rfl, rfl⟩
  · rw [if_neg hd]
    by_cases hu : rng.reals rng.rpos <
        Real.exp (((-(calc_energy_change m (rng.nats rng.npos % m.size)
          (rng.nats (rng.npos + 1) % m.size)) / (m.temperature * kB) : ℚ) : ℝ))
    · rw [if_pos hu]
      exact ⟨_, _, rfl, Or.inr rfl, rfl, rfl, rfl⟩
    · rw [if_neg hu]
      exact ⟨_, _, rfl, Or.inl rfl, rfl, rfl, rfl⟩

lemma sim_step_eq_of_ok (stepsN k : ℕ) (m : IsingModelClass) (rng : Rng)
    (m1 : IsingModelClass) (rng1 : Rng) (heq : metropolis_step m rng = .ok (m1, rng1)) :
    sim_step stepsN k m rng =
      (({ m1 with
            energies := some ((m1.energies.getD []).set k (total_energy m1)),
            magnetizations := some ((m1.magnetizations.getD []).set k (total_magnetization m1)) },
        rng1),
       if stepsN / 10 = 0 then some "ZeroDivisionError" else none) := by
  simp only [sim_step, heq]
  split_ifs <;> rfl

lemma sim_step_eq_of_error (stepsN k : ℕ) (m : IsingModelClass) (rng : Rng)
    (e : String) (heq : metropolis_step m rng = .error e) :
    sim_step stepsN k m rng = ((m, rng), some e) := by
  simp only [sim_step, heq]

/-- Claim C3: if a trajectory already exists on the instance (both recorded
arrays present, as any prior completed or partially completed run leaves
them), `simulate` returns exactly the stored sequences, does not change the
instance (in particular the spin lattice) and does not touch the random
source (no `metropolis_step` runs), whatever `steps` is. -/
theorem simulate_cached_noop (m : IsingModelClass) (rng : Rng) (steps : ℤ)
    (es ms : List ℚ) (he : m.energies = some es) (hm : m.magnetizations = some ms) :
    simulate steps m rng = ((m, rng), .ok (es, ms)) := by
  simp [simulate, he, hm]

/-- Witness for C3 at a concrete cached instance. -/
theorem simulate_cached_noop_witness :
    simulate 7 mCached rng0 = ((mCached, rng0), .ok ([42], [3])) :=
  simulate_cached_noop mCached rng0 7 [42] [3] rfl rfl

/-- Counterexample to claim C7 as stated: construction succeeds with
`size = 0` and also with a negative temperature; no configuration error is
raised. -/
theorem init_accepts_invalid_counterexample :
    isingInit 0 1 1 0 (fun _ _ => true) =
      .ok { size := 0, temperature := 1, J := 1, h := 0,
            spins := fun a b => if (fun _ _ => true) a b then 1 else -1,
            energies := none, magnetizations := none } ∧
    isingInit 2 (-1) 1 0 (fun _ _ => true) =
      .ok { size := 2, temperature := -1, J := 1, h := 0,
            spins := fun a b => if (fun _ _ => true) a b then 1 else -1,
            energies := none, magnetizations := none } := ⟨rfl, rfl⟩

/-- Claim C7 (amended): the constructor validates nothing itself; any
temperature (also nonpositive) and `size = 0` are accepted, and construction
produces the fully initialised instance; only a negative size fails, with the
array library's `ValueError`, producing no instance. -/
theorem init_no_validation (size : ℤ) (t Jc hc : ℚ) (c : ℕ → ℕ → Bool) :
    (0 ≤ size → isingInit size t Jc hc c =
      .ok { size := size.toNat, temperature := t, J := Jc, h := hc,
            spins := fun a b => if c a b then 1 else -1,
            energies := none, magnetizations := none }) ∧
    (size < 0 → isingInit size t Jc hc c =
      .error "ValueError: negative dimensions are not allowed") := by
  constructor
  · intro hnn
    simp [isingInit, not_lt.mpr hnn]
  · intro hneg
    simp [isingInit, hneg]

/-- Witness for the amended C7: a nonpositive temperature is accepted, a
negative size is rejected by the array library. -/
theorem init_no_validation_witness :
    isingInit 3 (-2) 5 7 (fun _ _ => true) =
      .ok { size := 3, temperature := -2, J := 5, h := 7,
            spins := fun a b => if (fun _ _ => true) a b then 1 else -1,
            energies := none, magnetizations := none } ∧
    isingInit (-4) 1 1 0 (fun _ _ => true) =
      .error "ValueError: negative dimensions are not allowed" :=
  ⟨(init_no_validation 3 (-2) 5 7 (fun _ _ => true)).1 (by decide),
   (init_no_validation (-4) 1 1 0 (fun _ _ => true)).2 (by decide)⟩

/-- Counterexample to claim C8 as stated: `simulate(0)` does not fail fast.
It silently succeeds, returning two empty sequences. -/
theorem simulate_zero_steps_counterexample :
    (simulate 0 mOne rng0).2 = .ok ([], []) := rfl

/-- Claim C8 (amended): on an instance without a cached trajectory,
`simulate(steps)` with `steps < 0` raises the array library's `ValueError`
from `np.zeros(steps)`; with `steps = 0` it silently succeeds, returning two
empty sequences and caching them on the instance. -/
theorem simulate_nonpositive_steps (m : IsingModelClass) (rng : Rng) (steps : ℤ)
    (hm : m.magnetizations = none) :
    (steps < 0 → simulate steps m rng =
      ((m, rng), .error "ValueError: negative dimensions are not allowed")) ∧
    simulate 0 m rng =
      (({ m with energies := some [], magnetizations := some [] }, rng), .ok ([], [])) := by
  constructor
  · intro hneg
    simp [simulate, hm, hneg]
  · simp [simulate, hm, sim_loop]

/-- Witness for the amended C8 at a concrete fresh instance. -/
theorem simulate_nonpositive_steps_witness :
    simulate (-1) mOne rng0 = ((mOne, rng0), .error "ValueError: negative dimensions are not allowed") ∧
    simulate 0 mOne rng0 =
      (({ mOne with energies := some [], magnetizations := some [] }, rng0), .ok ([], [])) :=
  ⟨(simulate_nonpositive_steps mOne rng0 (-1) rfl).1 (by decide),
   (simulate_nonpositive_steps mOne rng0 0 rfl).2⟩

/-- Claim C10: for `1 ≤ steps ≤ 9` on an uncached instance, `simulate`
raises `ZeroDivisionError` at the first iteration's progress check
(`steps // 10 = 0` is used as a modulus), and the failure is not atomic:
exactly one `metropolis_step` has run (first conjunct), the first energy and
magnetization samples are already written into the freshly allocated arrays
which remain attached to the instance (second conjunct), and any later
`simulate` call returns them as a cached trajectory (third conjunct). -/
theorem simulate_small_steps_div_zero (m : IsingModelClass) (rng : Rng) (steps : ℤ)
    (h1 : 1 ≤ steps) (h2 : steps ≤ 9) (hm : m.magnetizations = none) (hs : m.size ≠ 0) :
    ∃ m1 rng1,
      metropolis_step { m with energies := some (List.replicate steps.toNat (0 : ℚ)),
                               magnetizations := some (List.replicate steps.toNat (0 : ℚ)) } rng
        = .ok (m1, rng1) ∧
      simulate steps m rng =
        (({ m1 with
              energies := some ((List.replicate steps.toNat (0 : ℚ)).set 0 (total_energy m1)),
              magnetizations :=
                some ((List.replicate steps.toNat (0 : ℚ)).set 0 (total_magnetization m1)) },
          rng1),
         .error "ZeroDivisionError") ∧
      ∀ steps2 : ℤ, ∀ rng2 : Rng,
        simulate steps2
            { m1 with
              energies := some ((List.replicate steps.toNat (0 : ℚ)).set 0 (total_energy m1)),
              magnetizations :=
                some ((List.replicate steps.toNat (0 : ℚ)).set 0 (total_magnetization m1)) }
            rng2
          = (({ m1 with
                energies := some ((List.replicate steps.toNat (0 : ℚ)).set 0 (total_energy m1)),
                magnetizations :=
                  some ((List.replicate steps.toNat (0 : ℚ)).set 0 (total_magnetization m1)) },
              rng2),
             .ok ((List.replicate steps.toNat (0 : ℚ)).set 0 (total_energy m1),
                  (List.replicate steps.toNat (0 : ℚ)).set 0 (total_magnetization m1))) := by
  obtain ⟨m1, rng1, heq, hcase, -, -, -⟩ :=
    metropolis_step_ok_cases
      { m with energies := some (List.replicate steps.toNat (0 : ℚ)),
               magnetizations := some (List.replicate steps.toNat (0 : ℚ)) } rng hs
  have hen : m1.energies = some (List.replicate steps.toNat (0 : ℚ)) := by
    rcases hcase with rfl | rfl <;> rfl
  have hmag : m1.magnetizations = some (List.replicate steps.toNat (0 : ℚ)) := by
    rcases hcase with rfl | rfl <;> rfl
  refine ⟨m1, rng1, heq, ?_, ?_⟩
  · have h9 : steps.toNat ≤ 9 := by omega
    obtain ⟨r, hr⟩ : ∃ r, steps.toNat = r + 1 := ⟨steps.toNat - 1, by omega⟩
    rw [hr] at heq hen hmag ⊢
    have hdiv : (r + 1) / 10 = 0 := by omega
    have hstep := sim_step_eq_of_ok (r + 1) 0 _ rng m1 rng1 heq
    rw [if_pos hdiv, hen, hmag, Option.getD_some] at hstep
    simp only [simulate, hm]
    rw [if_neg (by omega : ¬ steps < 0), hr]
    simp only [sim_loop]
    rw [hstep]
  · intro steps2 rng2
    rfl

/-- Witness for C10 on a concrete fresh instance with `steps = 5`. -/
theorem simulate_small_steps_div_zero_witness :
    ∃ m1 rng1,
      metropolis_step { mOne with energies := some (List.replicate (5 : ℤ).toNat (0 : ℚ)),
                                  magnetizations := some (List.replicate (5 : ℤ).toNat (0 : ℚ)) } rng0
        = .ok (m1, rng1) ∧
      simulate 5 mOne rng0 =
        (({ m1 with
              energies := some ((List.replicate (5 : ℤ).toNat (0 : ℚ)).set 0 (total_energy m1)),
              magnetizations :=
                some ((List.replicate (5 : ℤ).toNat (0 : ℚ)).set 0 (total_magnetization m1)) },
          rng1),
         .error "ZeroDivisionError") ∧
      ∀ steps2 : ℤ, ∀ rng2 : Rng,
        simulate steps2
            { m1 with
              energies := some ((List.replicate (5 : ℤ).toNat (0 : ℚ)).set 0 (total_energy m1)),
              magnetizations :=
                some ((List.replicate (5 : ℤ).toNat (0 : ℚ)).set 0 (total_magnetization m1)) }
            rng2
          = (({ m1 with
                energies := some ((List.replicate (5 : ℤ).toNat (0 : ℚ)).set 0 (total_energy m1)),
                magnetizations :=
                  some ((List.replicate (5 : ℤ).toNat (0 : ℚ)).set 0 (total_magnetization m1)) },
              rng2),
             .ok ((List.replicate (5 : ℤ).toNat (0 : ℚ)).set 0 (total_energy m1),
                  (List.replicate (5 : ℤ).toNat (0 : ℚ)).set 0 (total_magnetization m1))) :=
  simulate_small_steps_div_zero mOne rng0 5 (by decide) (by decide) rfl (by decide)

/-- Progressing through the loop of `simulate` with a nonzero progress
divisor and a nonempty lattice never raises, and the two recorded arrays
stay attached with unchanged lengths. -/
lemma sim_loop_ok_lengths (stepsN : ℕ) (h10 : stepsN / 10 ≠ 0) :
    ∀ (r k : ℕ) (m : IsingModelClass) (rng : Rng) (es ms : List ℚ),
      m.size ≠ 0 → m.energies = some es → m.magnetizations = some ms →
      ∃ m1 rng1 es1 ms1,
        sim_loop stepsN k r m rng = ((m1, rng1), none) ∧
        m1.size = m.size ∧
        m1.energies = some es1 ∧ m1.magnetizations = some ms1 ∧
        es1.length = es.length ∧ ms1.length = ms.length := by
  intro r
  induction r with
  | zero =>
    intro k m rng es ms hsz he hmg
    exact ⟨m, rng, es, ms, by simp [sim_loop], rfl, he, hmg, rfl, rfl⟩
  | succ r ih =>
    intro k m rng es ms hsz he hmg
    obtain ⟨m1, rng1, heq, hcase, -, -, -⟩ := metropolis_step_ok_cases m rng hsz
    have hsz1 : m1.size = m.size := by rcases hcase with rfl | rfl <;> rfl
    have he1 : m1.energies = some es := by rcases hcase with rfl | rfl <;> simpa using he
    have hm1 : m1.magnetizations = some ms := by rcases hcase with rfl | rfl <;> simpa using hmg
    have hstep := sim_step_eq_of_ok stepsN k m rng m1 rng1 heq
    rw [if_neg h10, he1, hm1] at hstep
    simp only [Option.getD_some] at hstep
    obtain ⟨m2, rng2, es2, ms2, hloop, hsz2, he2, hm2, hl2, hl3⟩ :=
      ih (k + 1)
        { m1 with energies := some (es.set k (total_energy m1)),
                  magnetizations := some (ms.set k (total_magnetization m1)) } rng1
        (es.set k (total_energy m1)) (ms.set k (total_magnetization m1))
        (by simpa [hsz1] using hsz) rfl rfl
    refine ⟨m2, rng2, es2, ms2, ?_, ?_, he2, hm2, by simpa using hl2, by simpa using hl3⟩
    · simp only [sim_loop]
      rw [hstep]
      exact hloop
    · simpa [hsz1] using hsz2

/-- A fresh `simulate` run (no cached trajectory) with `steps ≥ 10` and a
nonempty lattice completes and returns two arrays of length `steps`. -/
lemma simulate_fresh_ok_aux (m : IsingModelClass) (rng : Rng) (steps : ℤ)
    (hm : m.magnetizations = none) (hs : m.size ≠ 0) (h10 : 10 ≤ steps) :
    ∃ m1 rng1 es ms,
      simulate steps m rng = ((m1, rng1), .ok (es, ms)) ∧
      es.length = steps.toNat ∧ ms.length = steps.toNat := by
  have h10n : steps.toNat / 10 ≠ 0 := by omega
  obtain ⟨m1, rng1, es1, ms1, hloop, -, he1, hm1, hl1, hl2⟩ :=
    sim_loop_ok_lengths steps.toNat h10n steps.toNat 0
      { m with energies := some (List.replicate steps.toNat (0 : ℚ)),
               magnetizations := some (List.replicate steps.toNat (0 : ℚ)) } rng
      (List.replicate steps.toNat (0 : ℚ)) (List.replicate steps.toNat (0 : ℚ)) hs rfl rfl
  refine ⟨m1, rng1, es1, ms1, ?_, by simpa using hl1, by simpa using hl2⟩
  simp only [simulate, hm]
  rw [if_neg (by omega : ¬ steps < 0), hloop]
  simp only [he1, hm1, Option.getD_some]

/-- Counterexample to claim C4 as stated: a cached trajectory is returned
regardless of the new `steps` argument.  Here `simulate(0)` caches two empty
sequences and a later `simulate(20)` returns them, with length 0, not 20. -/
theorem simulate_length_counterexample :
    (simulate 20 (simulate 0 mOne rng0).1.1 rng0).2 = .ok ([], []) ∧
    ([] : List ℚ).length ≠ 20 := ⟨rfl, by decide⟩

/-- Claim C4 (amended): on an instance with no cached trajectory and a
nonempty lattice, `simulate(steps)` for `steps ≥ 10` returns two sequences
each of length exactly `steps`, hence of equal length.  (With a cached
trajectory the stored sequences are returned unchanged, whatever their
length; and for `1 ≤ steps ≤ 9` the call raises instead of returning.) -/
theorem simulate_fresh_length (m : IsingModelClass) (rng : Rng) (steps : ℤ)
    (hm : m.magnetizations = none) (hs : m.size ≠ 0) (h10 : 10 ≤ steps) :
    ∃ m1 rng1 es ms,
      simulate steps m rng = ((m1, rng1), .ok (es, ms)) ∧
      es.length = steps.toNat ∧ ms.length = steps.toNat ∧ es.length = ms.length := by
  obtain ⟨m1, rng1, es, ms, heq, hl1, hl2⟩ := simulate_fresh_ok_aux m rng steps hm hs h10
  exact ⟨m1, rng1, es, ms, heq, hl1, hl2, by rw [hl1, hl2]⟩

/-- Witness for the amended C4 at a concrete fresh instance. -/
theorem simulate_fresh_length_witness :
    ∃ m1 rng1 es ms,
      simulate 10 mOne rng0 = ((m1, rng1), .ok (es, ms)) ∧
      es.length = (10 : ℤ).toNat ∧ ms.length = (10 : ℤ).toNat ∧ es.length = ms.length :=
  simulate_fresh_length mOne rng0 10 rfl (by decide) (by decide)

/-- Counterexample to claim C6 as stated: after `reset_model` the previously
recorded energy sequence is still stored on the instance (`delattr` is only
applied to `magnetizations`). -/
theorem reset_model_keeps_energies_counterexample :
    (reset_model mCached (fun _ _ => true)).energies = some [42] ∧
    (some [42] : Option (List ℚ)) ≠ none := ⟨rfl, by simp⟩

/-- Claim C6 (amended): `reset_model` redraws every spin from the random
source and deletes the magnetization sequence, so the trajectory cache is
invalidated and a subsequent `simulate` performs a fresh run of the
requested length; the stale energy sequence, however, remains stored until
that run overwrites it. -/
theorem reset_model_spec (m : IsingModelClass) (c : ℕ → ℕ → Bool) :
    (∀ a b, (reset_model m c).spins a b = if c a b then 1 else -1) ∧
    (reset_model m c).magnetizations = none ∧
    (reset_model m c).energies = m.energies ∧
    (reset_model m c).size = m.size ∧
    (∀ steps : ℤ, ∀ rng : Rng, 10 ≤ steps → m.size ≠ 0 →
      ∃ m1 rng1 es ms,
        simulate steps (reset_model m c) rng = ((m1, rng1), .ok (es, ms)) ∧
        es.length = steps.toNat ∧ ms.length = steps.toNat) := by
  refine ⟨fun a b => rfl, rfl, rfl, rfl, ?_⟩
  intro steps rng h10 hs
  exact simulate_fresh_ok_aux (reset_model m c) rng steps rfl hs h10

/-- Witness for the amended C6: resetting a cached concrete instance and
simulating again produces a fresh trajectory of the requested length. -/
theorem reset_model_spec_witness :
    ∃ m1 rng1 es ms,
      simulate 10 (reset_model mCached (fun _ _ => true)) rng0 = ((m1, rng1), .ok (es, ms)) ∧
      es.length = (10 : ℤ).toNat ∧ ms.length = (10 : ℤ).toNat :=
  (reset_model_spec mCached (fun _ _ => true)).2.2.2.2 10 rng0 (by decide) (by decide)

lemma flipSpin_pm (m : IsingModelClass) (i j : ℕ) (hpm : SpinsPM m) :
    SpinsPM (flipSpin m i j) := by
  intro a b
  rw [flipSpin_spins]
  by_cases hc : a = i ∧ b = j
  · rw [if_pos hc]
    rcases hpm a b with hv | hv <;> rw [hv]
    · right; norm_num
    · left; norm_num
  · rw [if_neg hc]
    exact hpm a b

lemma reset_model_pm (m : IsingModelClass) (c : ℕ → ℕ → Bool) : SpinsPM (reset_model m c) := by
  intro a b
  cases hcb : c a b
  · right; simp [reset_model, hcb]
  · left; simp [reset_model, hcb]

lemma sim_loop_pm (stepsN : ℕ) :
    ∀ (r k : ℕ) (m : IsingModelClass) (rng : Rng), SpinsPM m →
      SpinsPM (sim_loop stepsN k r m rng).1.1 ∧
      (sim_loop stepsN k r m rng).1.1.size = m.size := by
  intro r
  induction r with
  | zero =>
    intro k m rng h
    exact ⟨h, rfl⟩
  | succ r ih =>
    intro k m rng h
    by_cases hz : m.size = 0
    · have herr := sim_step_eq_of_error stepsN k m rng _ (metropolis_step_size_zero m rng hz)
      simp only [sim_loop]
      rw [herr]
      exact ⟨h, rfl⟩
    · obtain ⟨m1, rng1, heq, hcase, -, -, -⟩ := metropolis_step_ok_cases m rng hz
      have hpm1 : SpinsPM m1 := by
        rcases hcase with rfl | rfl
        exacts [h, flipSpin_pm _ _ _ h]
      have hsz1 : m1.size = m.size := by rcases hcase with rfl | rfl <;> rfl
      have hstep := sim_step_eq_of_ok stepsN k m rng m1 rng1 heq
      simp only [sim_loop]
      rw [hstep]
      by_cases h10 : stepsN / 10 = 0
      · rw [if_pos h10]
        exact ⟨hpm1, hsz1⟩
      · rw [if_neg h10]
        have hrec := ih (k + 1)
          { m1 with
            energies := some ((m1.energies.getD []).set k (total_energy m1)),
            magnetizations := some ((m1.magnetizations.getD []).set k (total_magnetization m1)) }
          rng1 hpm1
        exact ⟨hrec.1, hrec.2.trans hsz1⟩

lemma simulate_pm (steps : ℤ) (m : IsingModelClass) (rng : Rng) (h : SpinsPM m) :
    SpinsPM (simulate steps m rng).1.1 ∧ (simulate steps m rng).1.1.size = m.size := by
  rcases hmag : m.magnetizations with _ | mags
  · by_cases hneg : steps < 0
    · simp only [simulate, hmag]
      rw [if_pos hneg]
      exact ⟨h, by trivial⟩
    · simp only [simulate, hmag]
      rw [if_neg hneg]
      have hl := sim_loop_pm steps.toNat steps.toNat 0
        { m with energies := some (List.replicate steps.toNat (0 : ℚ)),
                 magnetizations := some (List.replicate steps.toNat (0 : ℚ)) } rng h
      rcases hloop : sim_loop steps.toNat 0 steps.toNat
          { m with energies := some (List.replicate steps.toNat (0 : ℚ)),
                   magnetizations := some (List.replicate steps.toNat (0 : ℚ)) } rng
        with ⟨⟨m1, rng1⟩, err⟩
      rw [hloop] at hl
      cases err
      · exact ⟨hl.1, hl.2⟩
      · exact ⟨hl.1, hl.2⟩
  · rcases hen : m.energies with _ | es
    · simp only [simulate, hmag, hen]
      exact ⟨h, by trivial⟩
    · simp only [simulate, hmag, hen]
      exact ⟨h, by trivial⟩

lemma runOp_pm (s : IsingModelClass × Rng) (op : Op) (h : SpinsPM s.1) :
    SpinsPM (runOp s op).1 ∧ (runOp s op).1.size = s.1.size := by
  rcases op with c | _ | steps
  · exact ⟨reset_model_pm s.1 c, rfl⟩
  · by_cases hz : s.1.size = 0
    · simp only [runOp, metropolis_step_size_zero s.1 s.2 hz]
      exact ⟨h, by trivial⟩
    · obtain ⟨m1, rng1, heq, hcase, -, -, -⟩ := metropolis_step_ok_cases s.1 s.2 hz
      simp only [runOp, heq]
      rcases hcase with rfl | rfl
      · exact ⟨h, rfl⟩
      · exact ⟨flipSpin_pm _ _ _ h, rfl⟩
  · simp only [runOp]
    exact simulate_pm steps s.1 s.2 h

lemma run_pm : ∀ (ops : List Op) (s : IsingModelClass × Rng), SpinsPM s.1 →
    SpinsPM (run s ops).1 ∧ (run s ops).1.size = s.1.size := by
  intro ops
  induction ops with
  | nil =>
    intro s h
    exact ⟨h, rfl⟩
  | cons op ops ih =>
    intro s h
    have h1 := runOp_pm s op h
    have h2 := ih (runOp s op) h1.1
    exact ⟨h2.1, h2.2.trans h1.2⟩

/-- Claim C5: starting from any constructed instance, after any sequence of
`reset_model`, `metropolis_step` and `simulate` operations (including the
states reached when an operation raises), every cell of the spin grid holds
a value in \x7b-1, +1\x7d and the grid dimension is unchanged. -/
theorem spin_domain_invariant (size : ℤ) (t Jc hc : ℚ) (c : ℕ → ℕ → Bool)
    (m0 : IsingModelClass) (hinit : isingInit size t Jc hc c = .ok m0)
    (rng : Rng) (ops : List Op) :
    SpinsPM (run (m0, rng) ops).1 ∧ (run (m0, rng) ops).1.size = m0.size := by
  have hpm : SpinsPM m0 := by
    unfold isingInit at hinit
    by_cases hneg : size < 0
    · rw [if_pos hneg] at hinit
      exact absurd hinit (by simp)
    · rw [if_neg hneg] at hinit
      injection hinit with h2
      subst h2
      intro a b
      cases hcb : c a b
      · right; simp [hcb]
      · left; simp [hcb]
  exact run_pm ops (m0, rng) hpm

/-- Witness for C5 at a concrete constructed instance and operation list. -/
theorem spin_domain_invariant_witness :
    SpinsPM (run (mOne, rng0) [Op.reset (fun _ _ => false)]).1 ∧
    (run (mOne, rng0) [Op.reset (fun _ _ => false)]).1.size = mOne.size :=
  spin_domain_invariant 1 1 1 0 (fun _ _ => true) mOne rfl rng0 [Op.reset (fun _ _ => false)]

/-- Claim C1: with a nonempty lattice, `metropolis_step` succeeds; the site
is given by two fresh independent integer draws each reduced into `[0, N)`;
the single selected spin is negated when the Metropolis condition
(`dE ≤ 0`, or else one fresh uniform draw below `exp(-dE/(kB T))`) holds,
every other spin being untouched; on rejection the instance is completely
unchanged; and the uniform draw is consumed exactly when `dE > 0` (for
`dE ≤ 0` the real-draw cursor does not move). -/
theorem metropolis_step_selects_and_flips (m : IsingModelClass) (rng : Rng) (hs : 0 < m.size) :
    ∃ m1 rng1,
      metropolis_step m rng = .ok (m1, rng1) ∧
      chosenRow m rng < m.size ∧ chosenCol m rng < m.size ∧
      (metropolisAccepts m rng →
        m1.spins (chosenRow m rng) (chosenCol m rng)
            = -1 * m.spins (chosenRow m rng) (chosenCol m rng) ∧
        ∀ a b : ℕ, ¬(a = chosenRow m rng ∧ b = chosenCol m rng) → m1.spins a b = m.spins a b) ∧
      (¬ metropolisAccepts m rng → m1 = m) ∧
      (calc_energy_change m (chosenRow m rng) (chosenCol m rng) ≤ 0 →
        rng1 = { rng with npos := rng.npos + 2 }) ∧
      (¬ calc_energy_change m (chosenRow m rng) (chosenCol m rng) ≤ 0 →
        rng1 = { rng with npos := rng.npos + 2, rpos := rng.rpos + 1 }) := by
  have hs0 : m.size ≠ 0 := by omega
  simp only [metropolisAccepts, chosenRow, chosenCol, acceptProb]
  unfold metropolis_step
  rw [if_neg hs0]
  by_cases hd : calc_energy_change m (rng.nats rng.npos % m.size)
      (rng.nats (rng.npos + 1) % m.size) ≤ 0
  · rw [if_pos hd]
    refine ⟨_, _, rfl, Nat.mod_lt _ hs, Nat.mod_lt _ hs, ?_, ?_,
      fun _ => rfl, fun hnd => absurd hd hnd⟩
    · intro _
      constructor
      · rw [flipSpin_spins, if_pos ⟨rfl, rfl⟩]
      · intro a b hab
        rw [flipSpin_spins, if_neg hab]
    · intro hna
      exact absurd (Or.inl hd) hna
  · rw [if_neg hd]
    by_cases hu : rng.reals rng.rpos <
        Real.exp (((-(calc_energy_change m (rng.nats rng.npos % m.size)
          (rng.nats (rng.npos + 1) % m.size)) / (m.temperature * kB) : ℚ) : ℝ))
    · rw [if_pos hu]
      refine ⟨_, _, rfl, Nat.mod_lt _ hs, Nat.mod_lt _ hs, ?_, ?_,
        fun hd2 => absurd hd2 hd, fun _ => rfl⟩
      · intro _
        constructor
        · rw [flipSpin_spins, if_pos ⟨rfl, rfl⟩]
        · intro a b hab
          rw [flipSpin_spins, if_neg hab]
      · intro hna
        exact absurd (Or.inr hu) hna
    · rw [if_neg hu]
      refine ⟨_, _, rfl, Nat.mod_lt _ hs, Nat.mod_lt _ hs, ?_, fun _ => rfl,
        fun hd2 => absurd hd2 hd, fun _ => rfl⟩
      intro hacc
      rcases hacc with hacc | hacc
      · exact absurd hacc hd
      · exact absurd hacc hu

/-- Witness for C1 at a concrete instance and random source. -/
theorem metropolis_step_selects_and_flips_witness :
    ∃ m1 rng1,
      metropolis_step mOne rng0 = .ok (m1, rng1) ∧
      chosenRow mOne rng0 < mOne.size ∧ chosenCol mOne rng0 < mOne.size ∧
      (metropolisAccepts mOne rng0 →
        m1.spins (chosenRow mOne rng0) (chosenCol mOne rng0)
            = -1 * mOne.spins (chosenRow mOne rng0) (chosenCol mOne rng0) ∧
        ∀ a b : ℕ, ¬(a = chosenRow mOne rng0 ∧ b = chosenCol mOne rng0) →
          m1.spins a b = mOne.spins a b) ∧
      (¬ metropolisAccepts mOne rng0 → m1 = mOne) ∧
      (calc_energy_change mOne (chosenRow mOne rng0) (chosenCol mOne rng0) ≤ 0 →
        rng1 = { rng0 with npos := rng0.npos + 2 }) ∧
      (¬ calc_energy_change mOne (chosenRow mOne rng0) (chosenCol mOne rng0) ≤ 0 →
        rng1 = { rng0 with npos := rng0.npos + 2, rpos := rng0.rpos + 1 }) :=
  metropolis_step_selects_and_flips mOne rng0 (by decide)

lemma pred_mod_eq (N x : ℕ) (hN : 0 < N) (hx : x < N) :
    (x + N - 1) % N = if x = 0 then N - 1 else x - 1 := by
  rcases x with _ | k
  · rw [if_pos rfl]
    simp only [Nat.zero_add]
    exact Nat.mod_eq_of_lt (by omega)
  · rw [if_neg (Nat.succ_ne_zero k)]
    have h1 : k + 1 + N - 1 = k + N := by omega
    rw [h1, Nat.add_mod_right, Nat.mod_eq_of_lt (by omega : k < N)]
    omega

lemma succ_mod_eq (N a : ℕ) (ha : a < N) :
    (a + 1) % N = if a + 1 = N then 0 else a + 1 := by
  by_cases hc : a + 1 = N
  · rw [if_pos hc, hc, Nat.mod_self]
  · rw [if_neg hc]
    exact Nat.mod_eq_of_lt (by omega)

lemma succ_mod_ne (N a : ℕ) (hN : 2 ≤ N) (ha : a < N) : (a + 1) % N ≠ a := by
  rw [succ_mod_eq N a ha]
  split_ifs <;> omega

lemma pred_mod_ne (N a : ℕ) (hN : 2 ≤ N) (ha : a < N) : (a + N - 1) % N ≠ a := by
  rw [pred_mod_eq N a (by omega) ha]
  split_ifs <;> omega

lemma pred_succ_mod (N a : ℕ) (hN : 2 ≤ N) (ha : a < N) : ((a + 1) % N + N - 1) % N = a := by
  rw [succ_mod_eq N a ha]
  by_cases hc : a + 1 = N
  · rw [if_pos hc, pred_mod_eq N 0 (by omega) (by omega), if_pos rfl]
    omega
  · rw [if_neg hc, pred_mod_eq N (a + 1) (by omega) (by omega),
      if_neg (Nat.succ_ne_zero a)]
    omega

lemma pred_mod_eq_iff (N i x : ℕ) (hN : 2 ≤ N) (hi : i < N) (hx : x < N) :
    (x + N - 1) % N = i ↔ x = (i + 1) % N := by
  rw [pred_mod_eq N x (by omega) hx, succ_mod_eq N i hi]
  split_ifs <;> omega

lemma sum_product_nested (N : ℕ) (f : ℕ → ℕ → ℤ) :
    ∑ p ∈ Finset.range N ×ˢ Finset.range N, f p.1 p.2
      = ∑ x ∈ Finset.range N, ∑ y ∈ Finset.range N, f x y :=
  Finset.sum_product' (Finset.range N) (Finset.range N) f

/-- Flipping one spin changes the whole-lattice sum of spins by minus twice
that spin. -/
lemma flip_sum_all (N : ℕ) (hN : 0 < N) (t t2 : ℕ → ℕ → ℤ) (i j : ℕ)
    (hi : i < N) (hj : j < N)
    (ht : ∀ a b, t2 a b = if a = i ∧ b = j then -1 * t a b else t a b) :
    ∑ x ∈ Finset.range N, ∑ y ∈ Finset.range N, t2 x y
      = (∑ x ∈ Finset.range N, ∑ y ∈ Finset.range N, t x y) - 2 * t i j := by
  have hkey : ∑ p ∈ Finset.range N ×ˢ Finset.range N, (t2 p.1 p.2 - t p.1 p.2)
      = -2 * t i j := by
    have hsub : ({(i, j)} : Finset (ℕ × ℕ)) ⊆ Finset.range N ×ˢ Finset.range N := by
      simp [Finset.singleton_subset_iff, Finset.mem_product, hi, hj]
    have hvan : ∀ p ∈ Finset.range N ×ˢ Finset.range N,
        p ∉ ({(i, j)} : Finset (ℕ × ℕ)) → t2 p.1 p.2 - t p.1 p.2 = 0 := by
      intro p _ hnp
      rw [Finset.mem_singleton] at hnp
      rw [ht, if_neg (fun hc => hnp (Prod.ext hc.1 hc.2))]
      ring
    rw [← Finset.sum_subset hsub hvan, Finset.sum_singleton, ht, if_pos ⟨rfl, rfl⟩]
    ring
  rw [Finset.sum_sub_distrib] at hkey
  rw [sum_product_nested N (fun x y => t2 x y),
      sum_product_nested N (fun x y => t x y)] at hkey
  linarith

/-- Flipping one spin changes the vertical rolled-product sum by minus twice
the spin times the sum of its two vertical periodic neighbors.  For `N ≥ 2`
the two affected summands are at distinct grid points. -/
lemma flip_sum_vert (N : ℕ) (hN : 2 ≤ N) (t t2 : ℕ → ℕ → ℤ) (i j : ℕ)
    (hi : i < N) (hj : j < N)
    (ht : ∀ a b, t2 a b = if a = i ∧ b = j then -1 * t a b else t a b) :
    ∑ x ∈ Finset.range N, ∑ y ∈ Finset.range N, t2 x y * t2 ((x + N - 1) % N) y
      = (∑ x ∈ Finset.range N, ∑ y ∈ Finset.range N, t x y * t ((x + N - 1) % N) y)
        - 2 * t i j * (t ((i + N - 1) % N) j + t ((i + 1) % N) j) := by
  have hN0 : 0 < N := by omega
  have hkey : ∑ p ∈ Finset.range N ×ˢ Finset.range N,
      (t2 p.1 p.2 * t2 ((p.1 + N - 1) % N) p.2 - t p.1 p.2 * t ((p.1 + N - 1) % N) p.2)
      = -2 * t i j * (t ((i + N - 1) % N) j + t ((i + 1) % N) j) := by
    have hpair : ({(i, j), ((i + 1) % N, j)} : Finset (ℕ × ℕ))
        ⊆ Finset.range N ×ˢ Finset.range N := by
      intro p hp
      simp only [Finset.mem_insert, Finset.mem_singleton] at hp
      rcases hp with rfl | rfl <;>
        simp [Finset.mem_product, hi, hj, Nat.mod_lt _ hN0]
    have hvan : ∀ p ∈ Finset.range N ×ˢ Finset.range N,
        p ∉ ({(i, j), ((i + 1) % N, j)} : Finset (ℕ × ℕ)) →
        t2 p.1 p.2 * t2 ((p.1 + N - 1) % N) p.2 - t p.1 p.2 * t ((p.1 + N - 1) % N) p.2 = 0 := by
      intro p hp hnp
      simp only [Finset.mem_insert, Finset.mem_singleton, not_or] at hnp
      obtain ⟨hp1, hp2⟩ := hnp
      rw [Finset.mem_product, Finset.mem_range, Finset.mem_range] at hp
      have e1 : t2 p.1 p.2 = t p.1 p.2 := by
        rw [ht, if_neg]
        intro hc
        exact hp1 (Prod.ext hc.1 hc.2)
      have e2 : t2 ((p.1 + N - 1) % N) p.2 = t ((p.1 + N - 1) % N) p.2 := by
        rw [ht, if_neg]
        intro hc
        exact hp2 (Prod.ext ((pred_mod_eq_iff N i p.1 hN hi hp.1).mp hc.1) hc.2)
      rw [e1, e2]
      ring
    have hne : ((i, j) : ℕ × ℕ) ≠ ((i + 1) % N, j) := by
      intro hcon
      exact succ_mod_ne N i hN hi (congrArg Prod.fst hcon).symm
    rw [← Finset.sum_subset hpair hvan, Finset.sum_pair hne]
    have v2 : t2 ((i + N - 1) % N) j = t ((i + N - 1) % N) j := by
      rw [ht, if_neg]
      intro hc
      exact pred_mod_ne N i hN hi hc.1
    have v3 : t2 ((i + 1) % N) j = t ((i + 1) % N) j := by
      rw [ht, if_neg]
      intro hc
      exact succ_mod_ne N i hN hi hc.1
    rw [pred_succ_mod N i hN hi, ht i j, if_pos ⟨rfl, rfl⟩, v2, v3]
    ring
  rw [Finset.sum_sub_distrib] at hkey
  rw [sum_product_nested N (fun x y => t2 x y * t2 ((x + N - 1) % N) y),
      sum_product_nested N (fun x y => t x y * t ((x + N - 1) % N) y)] at hkey
  linarith

/-- The horizontal analogue of `flip_sum_vert`, obtained by transposing. -/
lemma flip_sum_horiz (N : ℕ) (hN : 2 ≤ N) (t t2 : ℕ → ℕ → ℤ) (i j : ℕ)
    (hi : i < N) (hj : j < N)
    (ht : ∀ a b, t2 a b = if a = i ∧ b = j then -1 * t a b else t a b) :
    ∑ x ∈ Finset.range N, ∑ y ∈ Finset.range N, t2 x y * t2 x ((y + N - 1) % N)
      = (∑ x ∈ Finset.range N, ∑ y ∈ Finset.range N, t x y * t x ((y + N - 1) % N))
        - 2 * t i j * (t i ((j + N - 1) % N) + t i ((j + 1) % N)) := by
  have ht2 : ∀ a b, t2 b a = if a = j ∧ b = i then -1 * t b a else t b a := by
    intro a b
    rw [ht b a]
    by_cases hc : a = j ∧ b = i
    · rw [if_pos ⟨hc.2, hc.1⟩, if_pos hc]
    · rw [if_neg (fun hc2 => hc ⟨hc2.2, hc2.1⟩), if_neg hc]
  have h := flip_sum_vert N hN (fun a b => t b a) (fun a b => t2 b a) j i hj hi ht2
  calc ∑ x ∈ Finset.range N, ∑ y ∈ Finset.range N, t2 x y * t2 x ((y + N - 1) % N)
      = ∑ x ∈ Finset.range N, ∑ y ∈ Finset.range N, t2 y x * t2 y ((x + N - 1) % N) :=
        Finset.sum_comm
    _ = (∑ x ∈ Finset.range N, ∑ y ∈ Finset.range N, t y x * t y ((x + N - 1) % N))
          - 2 * t i j * (t i ((j + N - 1) % N) + t i ((j + 1) % N)) := h
    _ = (∑ x ∈ Finset.range N, ∑ y ∈ Finset.range N, t x y * t x ((y + N - 1) % N))
          - 2 * t i j * (t i ((j + N - 1) % N) + t i ((j + 1) % N)) := by
        exact congrArg
          (fun z => z - 2 * t i j * (t i ((j + N - 1) % N) + t i ((j + 1) % N)))
          Finset.sum_comm

/-- Claim C2: for every lattice of size at least 2 with spins in
\x7b-1, +1\x7d, the total energy recorded inside `simulate` evaluated after
flipping spin `(i, j)` minus the same total energy before the flip equals
exactly `calc_energy_change i j` on the unflipped state; the identity covers
`N = 2`, where each neighbor is counted twice in the neighbor sum.  (The
identity does not even need the spin values to be restricted.) -/
theorem energy_change_consistency (m : IsingModelClass) (i j : ℕ)
    (hN : 2 ≤ m.size) (hi : i < m.size) (hj : j < m.size)
    (hpm : ∀ a b, m.spins a b = 1 ∨ m.spins a b = -1) :
    total_energy (flipSpin m i j) - total_energy m = calc_energy_change m i j := by
  have ht : ∀ a b, (flipSpin m i j).spins a b =
      if a = i ∧ b = j then -1 * m.spins a b else m.spins a b := fun a b => rfl
  have hv := flip_sum_vert m.size hN m.spins (flipSpin m i j).spins i j hi hj ht
  have hh := flip_sum_horiz m.size hN m.spins (flipSpin m i j).spins i j hi hj ht
  have ha := flip_sum_all m.size (by omega) m.spins (flipSpin m i j).spins i j hi hj ht
  simp only [total_energy, calc_energy_change, flipSpin_J, flipSpin_h, flipSpin_size]
  simp only [Finset.sum_add_distrib]
  rw [hv, hh, ha]
  push_cast
  ring

/-- Witness for C2 at a concrete 2 by 2 all-up lattice and site (0, 0). -/
theorem energy_change_consistency_witness :
    total_energy (flipSpin mTwo 0 0) - total_energy mTwo = calc_energy_change mTwo 0 0 :=
  energy_change_consistency mTwo 0 0 (by decide) (by decide) (by decide)
    (fun a b => Or.inl rfl)

lemma sqrt_two_bounds : (1.41421 : ℝ) < Real.sqrt 2 ∧ Real.sqrt 2 < 1.41422 := by
  constructor
  · rw [Real.lt_sqrt (by norm_num)]
    norm_num
  · rw [Real.sqrt_lt' (by norm_num)]
    norm_num

lemma log_one_add_sqrt_two_lower : (0.8623 : ℝ) < Real.log (1 + Real.sqrt 2) := by
  have harg : (2.41421 : ℝ) < 1 + Real.sqrt 2 := by
    have := sqrt_two_bounds.1
    linarith
  have h2 : Real.log 2.41421 < Real.log (1 + Real.sqrt 2) :=
    Real.log_lt_log (by norm_num) harg
  have h3 : (2.41421 : ℝ) = 2 * 1.207105 := by norm_num
  have h4 : Real.log (2 * 1.207105) = Real.log 2 + Real.log 1.207105 :=
    Real.log_mul (by norm_num) (by norm_num)
  have h5 : (1 : ℝ) - (1.207105 : ℝ)⁻¹ ≤ Real.log 1.207105 :=
    Real.one_sub_inv_le_log_of_pos (by norm_num)
  have h6 := Real.log_two_gt_d9
  have h7 : (0.17157 : ℝ) < 1 - (1.207105 : ℝ)⁻¹ := by norm_num
  rw [h3, h4] at h2
  linarith

lemma log_one_add_sqrt_two_upper : Real.log (1 + Real.sqrt 2) < 0.9003 := by
  have harg : (1 : ℝ) + Real.sqrt 2 < 2.41422 := by
    have := sqrt_two_bounds.2
    linarith
  have h2 : Real.log (1 + Real.sqrt 2) < Real.log 2.41422 :=
    Real.log_lt_log (by positivity) harg
  have h3 : (2.41422 : ℝ) = 2 * 1.20711 := by norm_num
  have h4 : Real.log (2 * 1.20711) = Real.log 2 + Real.log 1.20711 :=
    Real.log_mul (by norm_num) (by norm_num)
  have h5 : Real.log 1.20711 ≤ (1.20711 : ℝ) - 1 :=
    Real.log_le_sub_one_of_pos (by norm_num)
  have h6 := Real.log_two_lt_d9
  rw [h3, h4] at h2
  linarith

lemma curie_value_bounds (L : ℝ) (h1 : (0.8623 : ℝ) < L) (h2 : L < 0.9003) :
    (1.6e23 : ℝ) < 2 / ((kB : ℝ) * L) ∧ 2 / ((kB : ℝ) * L) < 1.68e23 := by
  have hkB : (kB : ℝ) = 1.38064852e-23 := by norm_num [kB]
  rw [hkB]
  have hpos : (0 : ℝ) < 1.38064852e-23 * L := by nlinarith
  constructor
  · rw [lt_div_iff₀ hpos]
    nlinarith
  · rw [div_lt_iff₀ hpos]
    nlinarith

/-- Counterexample to the numerical gloss in claim C9: for J = 1 the
computed Curie temperature is below 1.68e23, hence more than 0.1 percent
below the 1.6969e23 the specification states (the true value is about
1.6436e23). -/
theorem curie_temperature_value_counterexample :
    calc_curie_temperature mTen < 0.999 * 1.6969e23 := by
  have hb := curie_value_bounds (Real.log (1 + Real.sqrt 2))
    log_one_add_sqrt_two_lower log_one_add_sqrt_two_upper
  have hone : calc_curie_temperature mTen = 2 / ((kB : ℝ) * Real.log (1 + Real.sqrt 2)) := by
    simp [calc_curie_temperature, mTen]
  have hc : (1.68e23 : ℝ) < 0.999 * 1.6969e23 := by norm_num
  rw [hone]
  have := hb.2
  linarith

/-- Claim C9 (amended): `calc_curie_temperature` returns exactly
`2 J / (kB ln(1+sqrt 2))`; it depends only on J, not on size, temperature,
h or the spin configuration; and for J = 1 the value lies strictly between
1.6e23 and 1.68e23 (about 1.6436e23, not the 1.6969e23 the specification
states). -/
theorem calc_curie_temperature_spec (m : IsingModelClass) :
    calc_curie_temperature m = 2 * (m.J : ℝ) / ((kB : ℝ) * Real.log (1 + Real.sqrt 2)) ∧
    (∀ m2 : IsingModelClass, m2.J = m.J → calc_curie_temperature m2 = calc_curie_temperature m) ∧
    (m.J = 1 → (1.6e23 : ℝ) < calc_curie_temperature m ∧ calc_curie_temperature m < 1.68e23) := by
  refine ⟨rfl, ?_, ?_⟩
  · intro m2 hJ
    simp [calc_curie_temperature, hJ]
  · intro hJ
    have hb := curie_value_bounds (Real.log (1 + Real.sqrt 2))
      log_one_add_sqrt_two_lower log_one_add_sqrt_two_upper
    have hone : calc_curie_temperature m = 2 / ((kB : ℝ) * Real.log (1 + Real.sqrt 2)) := by
      simp [calc_curie_temperature, hJ]
    rw [hone]
    exact hb

/-- Witness for the amended C9 on the specification's end-to-end scenario
instance (size 10, temperature 100, J = 1, h = 0). -/
theorem calc_curie_temperature_spec_witness :
    (1.6e23 : ℝ) < calc_curie_temperature mTen ∧ calc_curie_temperature mTen < 1.68e23 :=
  (calc_curie_temperature_spec mTen).2.2 rfl

end IsingModel
